import Mathlib

set_option maxHeartbeats 1000000

/-
Formal model of `src/twisted/python/_setup.py` (Twisted's setuptools
convenience module): the static package metadata, the optional-dependency
groups, the conditional C-extension machinery of `build_ext_twisted`, and
the readme link munging of `_longDescriptionFromReadme`.

Machine-level conventions of the embedding:
* the ambient interpreter/platform state (`os.name`, `sys.platform`,
  `platform.python_implementation()`) is an explicit `BuildEnv` value;
* in-place mutation of builder attributes is modelled by returning a new
  `BuildState`; the Python aliasing between `self.extensions` and
  `self.conditionalExtensions` (they hold the same objects) is reflected by
  updating the selected descriptors in both lists;
* the file system seen by `_compile_helper` is a list of file names, and the
  external compiler invocation is an explicit `CompileResult` input;
* `re` character classes are restricted to ASCII (`\s`, `re.I`), which covers
  every string the claims evaluate.
-/

/-- ASCII whitespace, modelling the `\s` class of the link-munging pattern. -/
def isSpaceChar (c : Char) : Bool :=
  c == ' ' || c == '\t' || c == '\n' || c == '\r' || c == Char.ofNat 11 || c == Char.ofNat 12

/-- The backquote character that delimits reStructuredText links. -/
def btick : Char := Char.ofNat 96

/-- ASCII lowering, modelling the effect of `re.I` on the literal characters
    of the pattern (all of which are ASCII). -/
def lowerAscii (c : Char) : Char :=
  if 65 ≤ c.toNat ∧ c.toNat ≤ 90 then Char.ofNat (c.toNat + 32) else c

/-- The ambient interpreter/platform state read by `_setup.py`:
    `os.name`, `sys.platform` and `platform.python_implementation()`. -/
structure BuildEnv where
  osName : String
  sysPlatform : String
  pythonImplementation : String

/-- An extension-module descriptor: the fields of a `ConditionalExtension`
    object that `_setup.py` reads. `Extension.__init__` stores `name`,
    `sources`, `libraries` and the `define_macros` list (spelled
    `defineMacros` here); `ConditionalExtension.__init__` adds `condition`.
    The builder argument of a condition is abstracted to the platform
    information a builder could give it. -/
structure ExtMod where
  name : String
  sources : List String
  libraries : List String
  defineMacros : List (String × Nat)
  condition : BuildEnv → Bool

/-- Model of `ConditionalExtension.__init__`: it pops the `condition` keyword
    with default `lambda builder: True` and delegates the rest to
    `Extension.__init__`; no construction in this file passes
    `define_macros`, so that list starts empty. -/
def ConditionalExtension (name : String) (sources : List String)
    (libraries : List String) (condition : Option (BuildEnv → Bool)) : ExtMod :=
  ⟨name, sources, libraries, [], condition.getD (fun _ => true)⟩

/-- Model of `_checkCPython`: `platform.python_implementation() == "CPython"`. -/
def _checkCPython (pythonImplementation : String) : Bool :=
  pythonImplementation == "CPython"

/-- Model of the module-level `_isCPython = _checkCPython()`. -/
def _isCPython (le : BuildEnv) : Bool :=
  _checkCPython le.pythonImplementation

/-- Model of `_EXTENSIONS`, parametrised by the interpreter state `le` in
    which the module is loaded (the lambdas close over `_isCPython` and read
    `sys.platform`, which at build time is the same state the builder sees;
    both lambdas ignore their builder argument, as in the source). -/
def _EXTENSIONS (le : BuildEnv) : List ExtMod :=
  [ConditionalExtension "twisted.test.raiser"
     ["src/twisted/test/raiser.c"]
     []
     (some (fun _ => _isCPython le)),
   ConditionalExtension "twisted.internet.iocpreactor.iocpsupport"
     ["src/twisted/internet/iocpreactor/iocpsupport/iocpsupport.c",
      "src/twisted/internet/iocpreactor/iocpsupport/winsock_pointers.c"]
     ["ws2_32"]
     (some (fun _ => _isCPython le && (le.sysPlatform == "win32")))]

/-- Model of `str.startswith` for ordinary strings. -/
def strStartsWith (s pre : String) : Bool :=
  s.toList.take pre.toList.length == pre.toList

/-- The platform macro list built at the start of `prepare_extensions`:
    `WIN32` when `os.name == "nt"`, plus `_XOPEN_SOURCE` and
    `_XOPEN_SOURCE_EXTENDED` when `sys.platform.startswith("sunos")`. -/
def platformMacros (osName sysPlatform : String) : List (String × Nat) :=
  (if osName == "nt" then [("WIN32", 1)] else [])
    ++ (if strStartsWith sysPlatform "sunos" then
          [("_XOPEN_SOURCE", 1), ("_XOPEN_SOURCE_EXTENDED", 1)]
        else [])

/-- The builder attributes written by `prepare_extensions`. -/
structure BuildState where
  defineMacros : List (String × Nat)
  conditionalExtensions : List ExtMod
  extensions : List ExtMod

/-- Model of `build_ext_twisted.prepare_extensions`: it sets
    `self.define_macros` to the platform macro list, selects
    `self.extensions` as the conditional extensions whose condition holds,
    and extends the `define_macros` list of each selected extension in
    place.  Since the selected objects are shared between `self.extensions`
    and `self.conditionalExtensions`, the update is visible in both lists. -/
def prepare_extensions (env : BuildEnv) (conditionalExtensions : List ExtMod) : BuildState :=
  let dm := platformMacros env.osName env.sysPlatform
  ⟨dm,
   conditionalExtensions.map
     (fun x => if x.condition env then ⟨x.name, x.sources, x.libraries, x.defineMacros ++ dm, x.condition⟩ else x),
   (conditionalExtensions.filter (fun x => x.condition env)).map
     (fun x => ⟨x.name, x.sources, x.libraries, x.defineMacros ++ dm, x.condition⟩)⟩

/-- The possible outcomes of the external `self.compiler.compile` call:
    success, a `CompileError`, or any other exception. -/
inductive CompileResult where
  | ok : CompileResult
  | compileError : CompileResult
  | otherError : CompileResult
deriving DecidableEq

/-- Model of `build_ext_twisted._remove_conftest`: unlink the three conftest
    files, ignoring `EnvironmentError` for those that do not exist. -/
def _remove_conftest (fs : List String) : List String :=
  fs.filter (fun f => !(f == "conftest.c" || f == "conftest.o" || f == "conftest.obj"))

/-- Model of `build_ext_twisted._compile_helper` on a file system `fs`:
    `open("conftest.c", "w")` creates the file, the external compiler call
    has outcome `res` and may create the files `created`, and the
    `try/finally` runs `_remove_conftest` before the function returns or the
    exception propagates.  The first component is `Except.ok` of the return
    value, or `Except.error ()` for a propagating non-`CompileError`
    exception; the second is the resulting file system. -/
def _compile_helper (fs : List String) (res : CompileResult) (created : List String) :
    Except Unit Bool × List String :=
  let fs1 := ("conftest.c" :: fs) ++ created
  match res with
  | CompileResult.ok => (Except.ok true, _remove_conftest fs1)
  | CompileResult.compileError => (Except.ok false, _remove_conftest fs1)
  | CompileResult.otherError => (Except.error (), _remove_conftest fs1)

/-- Case-insensitive prefix test over character lists, used for the
    `(?!https?://)` lookahead under `re.I`. -/
def startsWithCI (pat s : List Char) : Bool :=
  (s.take pat.length).map lowerAscii == pat

/-- Does `s` start with `http://` or `https://`, case-insensitively? -/
def startsWithHttpCI (s : List Char) : Bool :=
  startsWithCI ("http://".toList) s || startsWithCI ("https://".toList) s

/-- The part of the link pattern after the whitespace run: a literal `<`, the
    negative lookahead `(?!https?://)`, a non-empty group `([^>]+)`, then the
    literal characters `>`, backquote, `_`.  Returns the target group and the
    remainder of the input after the match. -/
def matchTargetPart (s1 : List Char) : Option (List Char × List Char) :=
  match s1 with
  | [] => none
  | c :: s2 =>
    if c != '<' then none
    else if startsWithHttpCI s2 then none
    else
      let tgt := s2.takeWhile (fun x => x != '>')
      if tgt.isEmpty then none
      else
        match s2.dropWhile (fun x => x != '>') with
        | c1 :: c2 :: c3 :: rest =>
          if c1 == '>' && c2 == btick && c3 == '_' then some (tgt, rest) else none
        | _ => none

/-- Matching of `\s+<(?!https?://)([^>]+)>` followed by backquote and `_`:
    the whitespace run `\s+` must be non-empty and, being greedy with a
    mandatory `<` next, is exactly the maximal whitespace run. -/
def matchAfterLabel (s : List Char) : Option (List Char × List Char) :=
  if (s.takeWhile isSpaceChar).isEmpty then none
  else matchTargetPart (s.dropWhile isSpaceChar)

/-- Backtracking over the end position of the greedy group `([^`]+)` inside
    the maximal backquote-free run `R`: positions are tried longest first, as
    the regex engine does.  Returns label group, target group and remainder. -/
def tryK : Nat → List Char → List Char → Option (List Char × List Char × List Char)
  | 0, _, _ => none
  | k+1, R, rest1 =>
    match matchAfterLabel (R.drop (k+1) ++ rest1) with
    | some (tgt, rest) => some (R.take (k+1), tgt, rest)
    | none => tryK k R rest1

/-- Attempt to match the full link pattern at the start of `cs`: a literal
    backquote, then a non-empty backquote-free label group, whitespace, and
    the target part. -/
def tryMatchAt (cs : List Char) : Option (List Char × List Char × List Char) :=
  match cs with
  | [] => none
  | c :: cs1 =>
    if c == btick then
      tryK (cs1.takeWhile (fun x => x != btick)).length
        (cs1.takeWhile (fun x => x != btick))
        (cs1.dropWhile (fun x => x != btick))
    else none

/-- The fixed middle part of the replacement template. -/
def githubBase : List Char := " <https://github.com/twisted/twisted/blob/trunk/".toList

/-- The replacement for a matched link, with the two groups substituted. -/
def replLink (label tgt : List Char) : List Char :=
  btick :: (label ++ githubBase ++ tgt ++ ('>' :: btick :: '_' :: []))

/-- Fuelled scan of `re.sub`: at each position try the pattern; on a match
    emit the replacement and continue after the match, otherwise copy one
    character.  `rstSub` supplies enough fuel for the whole input. -/
def subScanF : Nat → List Char → List Char
  | 0, cs => cs
  | n+1, cs =>
    match cs with
    | [] => []
    | c :: cs1 =>
      match tryMatchAt (c :: cs1) with
      | some (label, tgt, rest) => replLink label tgt ++ subScanF n rest
      | none => c :: subScanF n cs1

/-- The substitution performed by `_longDescriptionFromReadme`. -/
def rstSub (cs : List Char) : List Char := subScanF cs.length cs

/-- Model of `_longDescriptionFromReadme`, taking the text of the readme file
    (the `io.open(...).read()` result) rather than its path. -/
def _longDescriptionFromReadme (readmeRst : String) : String :=
  String.mk (rstSub readmeRst.toList)

/-- The Python values appearing in the setup dictionaries: strings, booleans,
    lists of strings, string-to-string dictionaries, string-to-string-list
    dictionaries, extension lists, nested dictionaries, and the
    `my_build_ext` class (identified by its `conditionalExtensions` class
    attribute). -/
inductive PyVal where
  | str : String → PyVal
  | pybool : Bool → PyVal
  | strList : List String → PyVal
  | strDict : List (String × String) → PyVal
  | strListDict : List (String × List String) → PyVal
  | extList : List ExtMod → PyVal
  | pyDict : List (String × PyVal) → PyVal
  | buildExtClass : List ExtMod → PyVal

/-- Python dictionary assignment `d[k] = v` on an insertion-ordered
    association list: overwrite in place when the key exists, append
    otherwise. -/
def dinsert {β : Type} (d : List (String × β)) (k : String) (v : β) : List (String × β) :=
  if d.any (fun p => p.1 == k) then d.map (fun p => if p.1 == k then (k, v) else p)
  else d ++ [(k, v)]

/-- Merging of key-value pairs into a dictionary, modelling `{..., **m}`. -/
def dextend {β : Type} (d : List (String × β)) (kvs : List (String × β)) : List (String × β) :=
  kvs.foldl (fun acc kv => dinsert acc kv.1 kv.2) d

/-- Model of `STATIC_PACKAGE_METADATA` (a `dict(...)` literal with pairwise
    distinct keys, in source order). -/
def STATIC_PACKAGE_METADATA : List (String × PyVal) :=
  [("name", PyVal.str "Twisted"),
   ("description", PyVal.str "An asynchronous networking framework written in Python"),
   ("author", PyVal.str "Twisted Matrix Laboratories"),
   ("author_email", PyVal.str "twisted-python@twistedmatrix.com"),
   ("maintainer", PyVal.str "Glyph Lefkowitz"),
   ("maintainer_email", PyVal.str "glyph@twistedmatrix.com"),
   ("url", PyVal.str "https://twistedmatrix.com/"),
   ("project_urls", PyVal.strDict
      [("Documentation", "https://twistedmatrix.com/documents/current/"),
       ("Source", "https://github.com/twisted/twisted"),
       ("Issues", "https://twistedmatrix.com/trac/report")]),
   ("license", PyVal.str "MIT"),
   ("classifiers", PyVal.strList
      ["Programming Language :: Python :: 3",
       "Programming Language :: Python :: 3 :: Only",
       "Programming Language :: Python :: 3.5",
       "Programming Language :: Python :: 3.6",
       "Programming Language :: Python :: 3.7",
       "Programming Language :: Python :: 3.8"]),
   ("python_requires", PyVal.str ">=3.5"),
   ("long_description_content_type", PyVal.str "text/x-rst"),
   ("install_requires", PyVal.strList
      ["zope.interface >= 4.4.2",
       "constantly >= 15.1",
       "incremental >= 16.10.1",
       "Automat >= 0.8.0",
       "hyperlink >= 17.1.1",
       "PyHamcrest >= 1.9.0",
       "attrs >= 19.2.0"]),
   ("use_incremental", PyVal.pybool true),
   ("setup_requires", PyVal.strList ["incremental >= 16.10.1"]),
   ("include_package_data", PyVal.pybool true),
   ("exclude_package_data", PyVal.strListDict
      [("", ["*.c", "*.h", "*.pxi", "*.pyx", "build.bat"])]),
   ("zip_safe", PyVal.pybool false),
   ("package_dir", PyVal.strDict [("", "src")]),
   ("entry_points", PyVal.strListDict
      [("console_scripts",
        ["ckeygen = twisted.conch.scripts.ckeygen:run",
         "cftp = twisted.conch.scripts.cftp:run",
         "conch = twisted.conch.scripts.conch:run",
         "mailmail = twisted.mail.scripts.mailmail:run",
         "pyhtmlizer = twisted.scripts.htmlizer:run",
         "tkconch = twisted.conch.scripts.tkconch:run",
         "trial = twisted.scripts.trial:run",
         "twist = twisted.application.twist._twist:Twist.main",
         "twistd = twisted.scripts.twistd:run"])])]

/-- The `_dev` list of development dependencies. -/
def _dev : List String :=
  ["pyflakes >= 1.0.0",
   "twisted-dev-tools >= 0.0.2",
   "python-subunit",
   "towncrier >= 17.4.0",
   "twistedchecker >= 0.7.2",
   "alabaster~=0.7.12",
   "commonmark~=0.9.1",
   "docutils~=0.16.0",
   "mock~=4.0",
   "pillow~=7.2",
   "readthedocs-sphinx-ext~=2.1",
   "recommonmark~=0.6.0",
   "sphinx~=3.2",
   "sphinx-rtd-theme~=0.5.0"]

/-- Model of the `_EXTRA_OPTIONS` dictionary. -/
def _EXTRA_OPTIONS : List (String × List String) :=
  [("dev", _dev),
   ("tls", ["pyopenssl >= 16.0.0", "service_identity >= 18.1.0", "idna >= 2.4"]),
   ("conch", ["pyasn1", "cryptography >= 2.6", "appdirs >= 1.4.0", "bcrypt >= 3.0.0"]),
   ("serial", ["pyserial >= 3.0", "pywin32 != 226; platform_system == \"Windows\""]),
   ("macos", ["pyobjc-core", "pyobjc-framework-CFNetwork", "pyobjc-framework-Cocoa"]),
   ("windows", ["pywin32 != 226"]),
   ("http2", ["h2 >= 3.0, < 4.0", "priority >= 1.1.0, < 2.0"]),
   ("contextvars", ["contextvars >= 2.4, < 3; python_version < \"3.7\""])]

/-- Dictionary indexing `_EXTRA_OPTIONS[k]` (every key used exists). -/
def eoGet (k : String) : List String :=
  (List.lookup k _EXTRA_OPTIONS).getD []

/-- Model of `_PLATFORM_INDEPENDENT`. -/
def _PLATFORM_INDEPENDENT : List String :=
  eoGet "tls" ++ eoGet "conch" ++ eoGet "serial" ++ eoGet "http2" ++ eoGet "contextvars"

/-- Model of `_EXTRAS_REQUIRE`: the dictionary literal followed by the
    assignment of `osx_platform` from `macos_platform`. -/
def _EXTRAS_REQUIRE : List (String × List String) :=
  let base :=
    [("dev", eoGet "dev"),
     ("tls", eoGet "tls"),
     ("conch", eoGet "conch"),
     ("serial", eoGet "serial"),
     ("http2", eoGet "http2"),
     ("contextvars", eoGet "contextvars"),
     ("all_non_platform", _PLATFORM_INDEPENDENT),
     ("macos_platform", eoGet "macos" ++ _PLATFORM_INDEPENDENT),
     ("windows_platform", eoGet "windows" ++ _PLATFORM_INDEPENDENT)]
  dinsert base "osx_platform" ((List.lookup "macos_platform" base).getD [])

/-- Model of `getSetupArgs`.  The two external inputs are made explicit: the
    result of `find_packages("src")` and the text of the readme file. -/
def getSetupArgs (extensions : List ExtMod) (packagesFound : List String)
    (readmeText : String) : List (String × PyVal) :=
  dextend
    (dextend []
      [("packages", PyVal.strList packagesFound),
       ("long_description", PyVal.str (_longDescriptionFromReadme readmeText)),
       ("ext_modules", PyVal.extList extensions),
       ("cmdclass", PyVal.pyDict [("build_ext", PyVal.buildExtClass extensions)]),
       ("extras_require", PyVal.strListDict _EXTRAS_REQUIRE)])
    STATIC_PACKAGE_METADATA

/-- Modelled from the spec: a "version-constrained package specifier" is a
    requirement string that carries a version comparison operator (one of
    `<`, `>`, `=`, `~`, `!` occurs in it).  The source has no such notion;
    this definition follows the spec's words so they can be checked against
    the declared dependency lists. -/
def isVersionConstrained (s : String) : Bool :=
  s.toList.any (fun c => c == '<' || c == '>' || c == '=' || c == '~' || c == '!')

/-- A Windows NT interpreter state, for concrete evaluations. -/
def envNT : BuildEnv := ⟨"nt", "win32", "CPython"⟩

/-- A Linux interpreter state, for concrete evaluations. -/
def envPosix : BuildEnv := ⟨"posix", "linux", "CPython"⟩

/-- A concrete descriptor whose condition always holds. -/
def sampleExtTrue : ExtMod :=
  ⟨"twisted.test.raiser", ["src/twisted/test/raiser.c"], [], [], fun _ => true⟩

/-- A concrete descriptor whose condition never holds. -/
def sampleExtFalse : ExtMod :=
  ⟨"twisted.test.raiser", ["src/twisted/test/raiser.c"], [], [], fun _ => false⟩

/-- A default descriptor for list indexing. -/
def defaultExt : ExtMod := ⟨"", [], [], [], fun _ => false⟩

lemma tw_filter_map_update (p : ExtMod → Bool) (f : ExtMod → ExtMod)
    (hp : ∀ e, p (f e) = p e) (l : List ExtMod) :
    (l.map (fun e => if p e then f e else e)).filter p = (l.filter p).map f := by
  induction l with
  | nil => rfl
  | cons a t ih =>
    cases h : p a with
    | true => simp [List.filter_cons, h, hp, ih]
    | false => simp [List.filter_cons, h, ih]

lemma tw_filter_not_map_update (p : ExtMod → Bool) (f : ExtMod → ExtMod)
    (hp : ∀ e, p (f e) = p e) (l : List ExtMod) :
    (l.map (fun e => if p e then f e else e)).filter (fun e => !(p e))
      = l.filter (fun e => !(p e)) := by
  induction l with
  | nil => rfl
  | cons a t ih =>
    cases h : p a with
    | true => simp [List.filter_cons, h, hp, ih]
    | false => simp [List.filter_cons, h, ih]

/-- C1: after `prepare_extensions` runs, `self.extensions` is exactly the
    sublist of `self.conditionalExtensions` whose condition predicate holds
    on the builder, in the original order; equivalently it is the
    condition-filtered input list, with the platform macros appended in
    place to each selected descriptor. -/
theorem prepare_extensions_selects_by_condition (env : BuildEnv) (exts : List ExtMod) :
    (prepare_extensions env exts).extensions
      = ((prepare_extensions env exts).conditionalExtensions).filter
          (fun e => e.condition env)
    ∧ (prepare_extensions env exts).extensions
      = (exts.filter (fun e => e.condition env)).map
          (fun x => ⟨x.name, x.sources, x.libraries,
            x.defineMacros ++ platformMacros env.osName env.sysPlatform, x.condition⟩) := by
  constructor
  · exact (tw_filter_map_update (fun e => e.condition env)
      (fun x => (⟨x.name, x.sources, x.libraries,
        x.defineMacros ++ platformMacros env.osName env.sysPlatform,
        x.condition⟩ : ExtMod))
      (fun e => rfl) exts).symm
  · rfl

/-- C2: a `CompileError` raised by the probe compilation is caught inside
    `_compile_helper`, which returns `False` instead of letting the error
    propagate; an extension whose condition comes out false is excluded from
    the prepared build (it is not among `self.extensions`), so the build
    step proceeds without it rather than failing. -/
theorem compileError_caught_and_condition_excludes
    (fs created : List String) (env : BuildEnv) (exts : List ExtMod) (e : ExtMod)
    (hmem : e ∈ exts) (hcond : e.condition env = false) :
    (_compile_helper fs CompileResult.compileError created).1 = Except.ok false
    ∧ e ∉ (prepare_extensions env exts).extensions := by
  refine ⟨rfl, ?_⟩
  intro hin
  simp only [prepare_extensions, List.mem_map, List.mem_filter] at hin
  obtain ⟨x, ⟨hx, hpx⟩, hfx⟩ := hin
  have hxc : e.condition env = true := by
    rw [← hfx]
    exact hpx
  rw [hxc] at hcond
  exact Bool.noConfusion hcond

/-- Witness for C2 at a concrete input. -/
theorem compileError_caught_witness :
    (_compile_helper [] CompileResult.compileError []).1 = Except.ok false
    ∧ sampleExtFalse ∉ (prepare_extensions envPosix [sampleExtFalse]).extensions :=
  compileError_caught_and_condition_excludes [] [] envPosix [sampleExtFalse] sampleExtFalse
    (List.mem_singleton.mpr rfl) rfl

/-- C3: the declared `_EXTENSIONS` list has exactly two descriptors; the
    `twisted.test.raiser` condition holds on any builder iff the interpreter
    is CPython, and the iocpsupport condition holds iff additionally
    `sys.platform` equals `"win32"`. -/
theorem declared_extension_conditions (le b : BuildEnv) :
    (_EXTENSIONS le).length = 2
    ∧ (((_EXTENSIONS le).getD 0 defaultExt).condition b = true
        ↔ le.pythonImplementation = "CPython")
    ∧ (((_EXTENSIONS le).getD 1 defaultExt).condition b = true
        ↔ (le.pythonImplementation = "CPython" ∧ le.sysPlatform = "win32")) := by
  refine ⟨rfl, ?_, ?_⟩
  · simp [_EXTENSIONS, ConditionalExtension, _isCPython, _checkCPython, List.getD]
  · simp [_EXTENSIONS, ConditionalExtension, _isCPython, _checkCPython, List.getD,
      Bool.and_eq_true]

/-- C4: every `ConditionalExtension` carries its source list and a condition
    attribute; when no `condition` keyword is supplied the condition is the
    constant-true predicate, and a supplied condition is stored as given. -/
theorem conditionalExtension_defaults (n : String) (s l : List String)
    (f : BuildEnv → Bool) (b : BuildEnv) :
    (ConditionalExtension n s l none).condition b = true
    ∧ (ConditionalExtension n s l none).sources = s
    ∧ (ConditionalExtension n s l none).defineMacros = []
    ∧ (ConditionalExtension n s l (some f)).condition = f
    ∧ (ConditionalExtension n s l (some f)).sources = s :=
  ⟨rfl, rfl, rfl, rfl, rfl⟩

/-- C7 counterexample: on NT the `WIN32` platform macro is appended in place
    to a selected descriptor, so `prepare_extensions` does modify a
    descriptor held in `conditionalExtensions` (its `define_macros` list
    changes), contradicting the claim that every descriptor is left
    unmodified on every platform. -/
theorem prepare_extensions_mutates_descriptors_on_nt :
    ((prepare_extensions envNT [sampleExtTrue]).conditionalExtensions.map
        (fun e => e.defineMacros))
      ≠ [sampleExtTrue].map (fun e => e.defineMacros) := by
  decide

/-- C7 (amended): on platforms that contribute no platform macros (`os.name`
    is not `"nt"` and `sys.platform` does not start with `"sunos"`)
    `prepare_extensions` leaves every descriptor in `conditionalExtensions`
    unmodified; only the `define_macros` lists of selected descriptors ever
    change. -/
theorem prepare_extensions_preserves_descriptors_without_platform_macros
    (env : BuildEnv) (exts : List ExtMod)
    (h : platformMacros env.osName env.sysPlatform = []) :
    (prepare_extensions env exts).conditionalExtensions = exts := by
  have hmap : ∀ l : List ExtMod,
      l.map (fun x => if x.condition env then
        (⟨x.name, x.sources, x.libraries,
          x.defineMacros ++ platformMacros env.osName env.sysPlatform,
          x.condition⟩ : ExtMod) else x) = l := by
    intro l
    induction l with
    | nil => rfl
    | cons a t ih =>
      simp only [List.map_cons, ih]
      congr 1
      cases hc : a.condition env
      · simp [hc]
      · simp [hc, h]
  exact hmap exts

/-- Witness for the amended C7 at a concrete input. -/
theorem prepare_extensions_preserves_descriptors_witness :
    platformMacros envPosix.osName envPosix.sysPlatform = []
    ∧ (prepare_extensions envPosix [sampleExtTrue]).conditionalExtensions = [sampleExtTrue] :=
  ⟨by decide,
   prepare_extensions_preserves_descriptors_without_platform_macros envPosix [sampleExtTrue]
     (by decide)⟩

/-- C9: `_compile_helper` returns `False` exactly on `CompileError`, `True`
    exactly on success, propagates exactly the other exceptions, and in
    every case the `try/finally` removes the three conftest files before it
    returns. -/
theorem compile_helper_outcome_and_cleanup (fs created : List String) (res : CompileResult) :
    ((_compile_helper fs res created).1 = Except.ok false ↔ res = CompileResult.compileError)
    ∧ ((_compile_helper fs res created).1 = Except.ok true ↔ res = CompileResult.ok)
    ∧ ((_compile_helper fs res created).1 = Except.error () ↔ res = CompileResult.otherError)
    ∧ "conftest.c" ∉ (_compile_helper fs res created).2
    ∧ "conftest.o" ∉ (_compile_helper fs res created).2
    ∧ "conftest.obj" ∉ (_compile_helper fs res created).2 := by
  cases res <;> simp [_compile_helper, _remove_conftest, List.mem_filter]

/-- Witness for C9 at a concrete input. -/
theorem compile_helper_outcome_witness :
    (_compile_helper ["keep.txt"] CompileResult.compileError ["conftest.o"]).1 = Except.ok false
    ∧ "conftest.o" ∉ (_compile_helper ["keep.txt"] CompileResult.compileError ["conftest.o"]).2 :=
  ⟨(compile_helper_outcome_and_cleanup ["keep.txt"] ["conftest.o"]
      CompileResult.compileError).1.mpr rfl,
   (compile_helper_outcome_and_cleanup ["keep.txt"] ["conftest.o"]
      CompileResult.compileError).2.2.2.2.1⟩

/-- C10: each selected extension's `define_macros` ends with exactly the
    platform macros (`WIN32` present iff `os.name == "nt"`, the two X/Open
    macros present iff `sys.platform` starts with `"sunos"`), and
    descriptors that are not selected receive no macros. -/
theorem prepare_extensions_platform_macros (env : BuildEnv) (exts : List ExtMod) :
    ((prepare_extensions env exts).extensions.map (fun e => e.defineMacros)
      = (exts.filter (fun e => e.condition env)).map
          (fun e => e.defineMacros ++ platformMacros env.osName env.sysPlatform))
    ∧ ((prepare_extensions env exts).conditionalExtensions.filter
          (fun e => !(e.condition env))
        = exts.filter (fun e => !(e.condition env)))
    ∧ (("WIN32", 1) ∈ platformMacros env.osName env.sysPlatform ↔ env.osName = "nt")
    ∧ (("_XOPEN_SOURCE", 1) ∈ platformMacros env.osName env.sysPlatform
        ↔ strStartsWith env.sysPlatform "sunos" = true)
    ∧ (("_XOPEN_SOURCE_EXTENDED", 1) ∈ platformMacros env.osName env.sysPlatform
        ↔ strStartsWith env.sysPlatform "sunos" = true) := by
  refine ⟨?_, ?_, ?_, ?_, ?_⟩
  · simp only [prepare_extensions, List.map_map]
    rfl
  · exact tw_filter_not_map_update (fun e => e.condition env)
      (fun x => (⟨x.name, x.sources, x.libraries,
        x.defineMacros ++ platformMacros env.osName env.sysPlatform,
        x.condition⟩ : ExtMod))
      (fun e => rfl) exts
  · simp only [platformMacros]
    cases hn : (env.osName == "nt") <;> cases hs : strStartsWith env.sysPlatform "sunos" <;>
      simp_all [beq_iff_eq, beq_eq_false_iff_ne]
  · simp only [platformMacros]
    cases hn : (env.osName == "nt") <;> cases hs : strStartsWith env.sysPlatform "sunos" <;>
      simp_all [beq_iff_eq, beq_eq_false_iff_ne]
  · simp only [platformMacros]
    cases hn : (env.osName == "nt") <;> cases hs : strStartsWith env.sysPlatform "sunos" <;>
      simp_all [beq_iff_eq, beq_eq_false_iff_ne]

/-- C6 counterexample: `"pyasn1"` is an element of the `conch` value of
    `_EXTRAS_REQUIRE` but carries no version constraint, so not every value
    of the mapping is a list of version-constrained package specifiers. -/
theorem extras_specifier_not_version_constrained :
    "pyasn1" ∈ (List.lookup "conch" _EXTRAS_REQUIRE).getD []
    ∧ isVersionConstrained "pyasn1" = false := by
  constructor
  · decide
  · decide

/-- C6 (amended): every value of `_EXTRAS_REQUIRE` is a list of package
    specifier strings, not all of them version-constrained, and the combined
    groups are exact concatenations: `all_non_platform` is tls + conch +
    serial + http2 + contextvars, `macos_platform` and `windows_platform`
    prepend the respective platform options to that platform-independent
    list, and `osx_platform` equals `macos_platform`. -/
theorem extras_require_group_concatenations :
    List.lookup "all_non_platform" _EXTRAS_REQUIRE
      = some (eoGet "tls" ++ eoGet "conch" ++ eoGet "serial" ++ eoGet "http2"
          ++ eoGet "contextvars")
    ∧ List.lookup "macos_platform" _EXTRAS_REQUIRE
      = some (eoGet "macos" ++ _PLATFORM_INDEPENDENT)
    ∧ List.lookup "windows_platform" _EXTRAS_REQUIRE
      = some (eoGet "windows" ++ _PLATFORM_INDEPENDENT)
    ∧ List.lookup "osx_platform" _EXTRAS_REQUIRE
      = List.lookup "macos_platform" _EXTRAS_REQUIRE := by
  refine ⟨?_, ?_, ?_, ?_⟩ <;> rfl

lemma tw_dinsert_fresh {β : Type} (d : List (String × β)) (k : String) (v : β)
    (h : ∀ p ∈ d, (p.1 == k) = false) : dinsert d k v = d ++ [(k, v)] := by
  have hfalse : d.any (fun p => p.1 == k) = false := by
    rw [List.any_eq_false]
    intro p hp
    simp [h p hp]
  simp [dinsert, hfalse]

lemma tw_dextend_append {β : Type} :
    ∀ (kvs d : List (String × β)),
      ((d ++ kvs).map Prod.fst).Nodup → dextend d kvs = d ++ kvs := by
  intro kvs
  induction kvs with
  | nil =>
    intro d h
    simp [dextend]
  | cons kv rest ih =>
    intro d h
    obtain ⟨k, v⟩ := kv
    have hk : k ∉ d.map Prod.fst := by
      simp only [List.map_append, List.map_cons] at h
      intro hmem
      exact (List.disjoint_of_nodup_append h) hmem (List.mem_cons_self _ _)
    have hfresh : ∀ p ∈ d, (p.1 == k) = false := by
      intro p hp
      rw [beq_eq_false_iff_ne]
      intro he
      exact hk (he ▸ List.mem_map_of_mem Prod.fst hp)
    have hstep : dextend d ((k, v) :: rest) = dextend (d ++ [(k, v)]) rest := by
      simp [dextend, tw_dinsert_fresh d k v hfresh]
    rw [hstep]
    have h2 : (((d ++ [(k, v)]) ++ rest).map Prod.fst).Nodup := by
      simpa [List.append_assoc] using h
    rw [ih (d ++ [(k, v)]) h2]
    simp

lemma tw_getSetupArgs_eq (exts : List ExtMod) (pk : List String) (rd : String) :
    getSetupArgs exts pk rd
      = [("packages", PyVal.strList pk),
         ("long_description", PyVal.str (_longDescriptionFromReadme rd)),
         ("ext_modules", PyVal.extList exts),
         ("cmdclass", PyVal.pyDict [("build_ext", PyVal.buildExtClass exts)]),
         ("extras_require", PyVal.strListDict _EXTRAS_REQUIRE)]
        ++ STATIC_PACKAGE_METADATA := by
  unfold getSetupArgs
  have h1 : dextend ([] : List (String × PyVal))
      [("packages", PyVal.strList pk),
       ("long_description", PyVal.str (_longDescriptionFromReadme rd)),
       ("ext_modules", PyVal.extList exts),
       ("cmdclass", PyVal.pyDict [("build_ext", PyVal.buildExtClass exts)]),
       ("extras_require", PyVal.strListDict _EXTRAS_REQUIRE)]
      = [("packages", PyVal.strList pk),
         ("long_description", PyVal.str (_longDescriptionFromReadme rd)),
         ("ext_modules", PyVal.extList exts),
         ("cmdclass", PyVal.pyDict [("build_ext", PyVal.buildExtClass exts)]),
         ("extras_require", PyVal.strListDict _EXTRAS_REQUIRE)] := by
    rw [tw_dextend_append]
    · simp
    · simp only [List.nil_append, List.map_cons, List.map_nil]
      decide
  rw [h1, tw_dextend_append]
  simp only [STATIC_PACKAGE_METADATA, List.map_append, List.map_cons, List.map_nil]
  decide

/-- C5: for every extension list, package list and readme text,
    `getSetupArgs` yields a dictionary containing every key-value pair of
    `STATIC_PACKAGE_METADATA`, mapping `extras_require` to
    `_EXTRAS_REQUIRE`, `ext_modules` to the given extensions, and `cmdclass`
    to a `build_ext` override whose `conditionalExtensions` attribute is the
    given extension list. -/
theorem getSetupArgs_contains_metadata_and_overrides
    (exts : List ExtMod) (pk : List String) (rd : String) :
    (∀ kv ∈ STATIC_PACKAGE_METADATA,
      List.lookup kv.1 (getSetupArgs exts pk rd) = some kv.2)
    ∧ List.lookup "extras_require" (getSetupArgs exts pk rd)
        = some (PyVal.strListDict _EXTRAS_REQUIRE)
    ∧ List.lookup "ext_modules" (getSetupArgs exts pk rd) = some (PyVal.extList exts)
    ∧ List.lookup "cmdclass" (getSetupArgs exts pk rd)
        = some (PyVal.pyDict [("build_ext", PyVal.buildExtClass exts)]) := by
  refine ⟨?_, ?_, ?_, ?_⟩
  · intro kv hkv
    rw [tw_getSetupArgs_eq]
    fin_cases hkv <;> rfl
  · rw [tw_getSetupArgs_eq]
    rfl
  · rw [tw_getSetupArgs_eq]
    rfl
  · rw [tw_getSetupArgs_eq]
    rfl

/-- Witness for C5 at a concrete input. -/
theorem getSetupArgs_witness :
    List.lookup "name" (getSetupArgs [] [] "") = some (PyVal.str "Twisted") :=
  (getSetupArgs_contains_metadata_and_overrides [] [] "").1
    ("name", PyVal.str "Twisted") (List.mem_cons_self _ _)





lemma tw_takeWhile_append_all {α : Type} (p : α → Bool) (l₁ l₂ : List α)
    (h : ∀ a ∈ l₁, p a = true) :
    (l₁ ++ l₂).takeWhile p = l₁ ++ l₂.takeWhile p := by
  induction l₁ with
  | nil => simp
  | cons a t ih =>
    have ha : p a = true := h a (List.mem_cons_self _ _)
    simp [List.takeWhile_cons, ha, ih (fun x hx => h x (List.mem_cons_of_mem _ hx))]

lemma tw_dropWhile_append_all {α : Type} (p : α → Bool) (l₁ l₂ : List α)
    (h : ∀ a ∈ l₁, p a = true) :
    (l₁ ++ l₂).dropWhile p = l₂.dropWhile p := by
  induction l₁ with
  | nil => simp
  | cons a t ih =>
    have ha : p a = true := h a (List.mem_cons_self _ _)
    simp [List.dropWhile_cons, ha, ih (fun x hx => h x (List.mem_cons_of_mem _ hx))]

lemma tw_takeWhile_all {α : Type} (p : α → Bool) (l : List α)
    (h : ∀ a ∈ l, p a = true) : l.takeWhile p = l := by
  have := tw_takeWhile_append_all p l [] h
  simpa using this

lemma tw_dropWhile_all {α : Type} (p : α → Bool) (l : List α)
    (h : ∀ a ∈ l, p a = true) : l.dropWhile p = [] := by
  have := tw_dropWhile_append_all p l [] h
  simpa using this

lemma tw_mtp_inv (s1 tgt rest : List Char) (h : matchTargetPart s1 = some (tgt, rest)) :
    ∃ s2, s1 = '<' :: s2
      ∧ startsWithHttpCI s2 = false
      ∧ tgt = s2.takeWhile (fun x => x != '>')
      ∧ tgt.isEmpty = false
      ∧ s2.dropWhile (fun x => x != '>') = '>' :: btick :: '_' :: rest := by
  cases s1 with
  | nil => simp [matchTargetPart] at h
  | cons c s2 =>
    refine ⟨s2, ?_⟩
    cases hbn : (c != '<') with
    | true => simp [matchTargetPart, hbn] at h
    | false =>
      have hc : c = '<' := by
        by_contra hne
        exact absurd hbn (by simp [bne_iff_ne.mpr hne])
      cases hh : startsWithHttpCI s2 with
      | true => simp [matchTargetPart, hbn, hh] at h
      | false =>
        cases hemp : (s2.takeWhile (fun x => x != '>')).isEmpty with
        | true => simp [matchTargetPart, hbn, hh, hemp] at h
        | false =>
          cases hd : s2.dropWhile (fun x => x != '>') with
          | nil => simp [matchTargetPart, hbn, hh, hemp, hd] at h
          | cons c1 r1 =>
            cases r1 with
            | nil => simp [matchTargetPart, hbn, hh, hemp, hd] at h
            | cons c2 r2 =>
              cases r2 with
              | nil => simp [matchTargetPart, hbn, hh, hemp, hd] at h
              | cons c3 r3 =>
                cases hcond : (c1 == '>' && c2 == btick && c3 == '_') with
                | false => simp [matchTargetPart, hbn, hh, hemp, hd, hcond] at h
                | true =>
                  simp only [matchTargetPart, hbn, hh, hemp, hd, hcond,
                    Bool.false_eq_true, if_false, if_true] at h
                  obtain ⟨htgt, hrest⟩ := by simpa using h
                  obtain ⟨⟨h1, h2⟩, h3⟩ : (c1 = '>' ∧ c2 = btick) ∧ c3 = '_' := by
                    simpa [Bool.and_eq_true, beq_iff_eq] using hcond
                  subst hc h1 h2 h3 hrest
                  exact ⟨rfl, rfl, htgt.symm, by rwa [htgt] at hemp, rfl⟩

lemma tw_mtp_some_length (s1 tgt rest : List Char)
    (h : matchTargetPart s1 = some (tgt, rest)) : rest.length ≤ s1.length := by
  obtain ⟨s2, hs1, _, _, _, hdrop⟩ := tw_mtp_inv s1 tgt rest h
  have h1 : (s2.dropWhile (fun x => x != '>')).length ≤ s2.length :=
    (List.dropWhile_sublist _).length_le
  rw [hdrop] at h1
  simp only [List.length_cons] at h1
  subst hs1
  simp only [List.length_cons]
  omega

lemma tw_mal_some_mtp (s : List Char) (t r : List Char)
    (h : matchAfterLabel s = some (t, r)) :
    matchTargetPart (s.dropWhile isSpaceChar) = some (t, r) := by
  simp only [matchAfterLabel] at h
  by_cases he : (s.takeWhile isSpaceChar).isEmpty = true
  · rw [if_pos he] at h
    exact absurd h (by simp)
  · rw [if_neg he] at h
    exact h

lemma tw_mal_some_length (s t r : List Char)
    (h : matchAfterLabel s = some (t, r)) : r.length ≤ s.length := by
  have h1 := tw_mtp_some_length _ _ _ (tw_mal_some_mtp s t r h)
  have h2 : (s.dropWhile isSpaceChar).length ≤ s.length :=
    (List.dropWhile_sublist _).length_le
  omega

lemma tw_tryK_some_length (R r1 : List Char) :
    ∀ (k : Nat) (l t rest : List Char), tryK k R r1 = some (l, t, rest) →
      rest.length ≤ R.length + r1.length := by
  intro k
  induction k with
  | zero => intro l t rest h; exact absurd h (by simp [tryK])
  | succ k ih =>
    intro l t rest h
    simp only [tryK] at h
    cases hm : matchAfterLabel (R.drop (k+1) ++ r1) with
    | some pr =>
      rw [hm] at h
      obtain ⟨t0, r0⟩ := pr
      obtain ⟨hl, ht, hr⟩ := by simpa using h
      have h1 := tw_mal_some_length _ _ _ hm
      have h2 : (R.drop (k+1) ++ r1).length ≤ R.length + r1.length := by
        simp [List.length_append, List.length_drop]
      subst hr
      omega
    | none =>
      rw [hm] at h
      exact ih l t rest h

lemma tw_tryMatchAt_some_length (c : Char) (cs l t rest : List Char)
    (h : tryMatchAt (c :: cs) = some (l, t, rest)) : rest.length ≤ cs.length := by
  simp only [tryMatchAt] at h
  split at h
  · have h1 := tw_tryK_some_length _ _ _ _ _ _ h
    have h2 : (cs.takeWhile (fun x => x != btick)).length
        + (cs.dropWhile (fun x => x != btick)).length = cs.length := by
      rw [← List.length_append, List.takeWhile_append_dropWhile]
    omega
  · exact absurd h (by simp)

lemma tw_subScanF_nil : ∀ n, subScanF n [] = [] := by
  intro n
  cases n <;> rfl

lemma tw_subScanF_succ_some (n : Nat) (c : Char) (cs l t rest : List Char)
    (h : tryMatchAt (c :: cs) = some (l, t, rest)) :
    subScanF (n+1) (c :: cs) = replLink l t ++ subScanF n rest := by
  simp [subScanF, h]

lemma tw_subScanF_succ_none (n : Nat) (c : Char) (cs : List Char)
    (h : tryMatchAt (c :: cs) = none) :
    subScanF (n+1) (c :: cs) = c :: subScanF n cs := by
  simp [subScanF, h]

lemma tw_subScanF_fuel : ∀ (n m : Nat) (cs : List Char),
    cs.length ≤ n → cs.length ≤ m → subScanF n cs = subScanF m cs := by
  intro n
  induction n with
  | zero =>
    intro m cs hn _
    have h0 : cs = [] := List.length_eq_zero.mp (Nat.le_zero.mp hn)
    subst h0
    simp [tw_subScanF_nil]
  | succ n ih =>
    intro m cs hn hm
    cases cs with
    | nil => simp [tw_subScanF_nil]
    | cons c cs1 =>
      cases m with
      | zero => exact absurd hm (by simp)
      | succ m' =>
        simp only [List.length_cons] at hn hm
        cases htm : tryMatchAt (c :: cs1) with
        | some ltr =>
          obtain ⟨l, t, rest⟩ := ltr
          have hr := tw_tryMatchAt_some_length c cs1 l t rest htm
          rw [tw_subScanF_succ_some n c cs1 l t rest htm,
            tw_subScanF_succ_some m' c cs1 l t rest htm,
            ih m' rest (by omega) (by omega)]
        | none =>
          rw [tw_subScanF_succ_none n c cs1 htm, tw_subScanF_succ_none m' c cs1 htm,
            ih m' cs1 (by omega) (by omega)]

lemma tw_rstSub_cons_some (c : Char) (cs l t rest : List Char)
    (h : tryMatchAt (c :: cs) = some (l, t, rest)) :
    rstSub (c :: cs) = replLink l t ++ rstSub rest := by
  show subScanF (c :: cs).length (c :: cs) = _
  rw [List.length_cons, tw_subScanF_succ_some cs.length c cs l t rest h]
  have hr := tw_tryMatchAt_some_length c cs l t rest h
  rw [tw_subScanF_fuel cs.length rest.length rest hr (Nat.le_refl _)]
  rfl

lemma tw_rstSub_cons_none (c : Char) (cs : List Char)
    (h : tryMatchAt (c :: cs) = none) : rstSub (c :: cs) = c :: rstSub cs := by
  show subScanF (c :: cs).length (c :: cs) = _
  rw [List.length_cons, tw_subScanF_succ_none cs.length c cs h]
  rfl

lemma tw_tryMatchAt_not_btick (c : Char) (cs : List Char) (h : c ≠ btick) :
    tryMatchAt (c :: cs) = none := by
  have hb : (c == btick) = false := beq_eq_false_iff_ne.mpr h
  simp [tryMatchAt, hb]

lemma tw_rstSub_copy (pre t : List Char) (h : ∀ c ∈ pre, c ≠ btick) :
    rstSub (pre ++ t) = pre ++ rstSub t := by
  induction pre with
  | nil => simp
  | cons a p ih =>
    have ha : a ≠ btick := h a (List.mem_cons_self _ _)
    rw [List.cons_append, tw_rstSub_cons_none _ _ (tw_tryMatchAt_not_btick a _ ha),
      ih (fun x hx => h x (List.mem_cons_of_mem _ hx))]
    rfl

lemma tw_mal_nil : matchAfterLabel [] = none := rfl

lemma tw_mal_cons_not_space (c : Char) (s : List Char) (h : isSpaceChar c = false) :
    matchAfterLabel (c :: s) = none := by
  simp [matchAfterLabel, List.takeWhile_cons, h]

lemma tw_mtp_no_btick (s1 : List Char) (h : ∀ c ∈ s1, c ≠ btick) :
    matchTargetPart s1 = none := by
  cases hr : matchTargetPart s1 with
  | none => rfl
  | some pr =>
    obtain ⟨tgt, rest⟩ := pr
    obtain ⟨s2, hs1, _, _, _, hdrop⟩ := tw_mtp_inv s1 tgt rest hr
    have hmem : btick ∈ s2 := by
      have h1 : btick ∈ s2.dropWhile (fun x => x != '>') := by
        rw [hdrop]
        simp
      exact (List.dropWhile_sublist _).subset h1
    exact absurd rfl (h btick (by rw [hs1]; exact List.mem_cons_of_mem _ hmem))

lemma tw_mal_no_btick (s : List Char) (h : ∀ c ∈ s, c ≠ btick) :
    matchAfterLabel s = none := by
  simp only [matchAfterLabel]
  split
  · rfl
  · exact tw_mtp_no_btick _ (fun c hc => h c ((List.dropWhile_sublist _).subset hc))

lemma tw_mal_drop_none (Y r1 : List Char)
    (hY : ∀ c ∈ Y, isSpaceChar c = false)
    (hr1 : ∀ c r, r1 = c :: r → isSpaceChar c = false) :
    ∀ i, matchAfterLabel (Y.drop i ++ r1) = none := by
  intro i
  cases hd : Y.drop i with
  | nil =>
    simp only [List.nil_append]
    cases hr : r1 with
    | nil => exact tw_mal_nil
    | cons c r => exact tw_mal_cons_not_space c r (hr1 c r hr)
  | cons c ys =>
    have hc : isSpaceChar c = false :=
      hY c (List.drop_subset i Y (hd ▸ List.mem_cons_self c ys))
    rw [List.cons_append]
    exact tw_mal_cons_not_space _ _ hc

lemma tw_startsWithCI_append (pat tgt r : List Char)
    (hpat : '>' ∉ pat) (htgt : ∀ c ∈ tgt, c ≠ '>') :
    startsWithCI pat (tgt ++ '>' :: r) = startsWithCI pat tgt := by
  by_cases hlen : pat.length ≤ tgt.length
  · unfold startsWithCI
    rw [List.take_append_of_le_length hlen]
  · push_neg at hlen
    have h1 : startsWithCI pat (tgt ++ '>' :: r) = false := by
      unfold startsWithCI
      rw [beq_eq_false_iff_ne]
      intro he
      obtain ⟨k, hk, hk1⟩ : ∃ k, pat.length = tgt.length + k ∧ 1 ≤ k :=
        ⟨pat.length - tgt.length, by omega, by omega⟩
      have hw : (tgt ++ '>' :: r).take pat.length = tgt ++ ('>' :: r).take k := by
        rw [hk, List.take_append]
      rw [hw] at he
      cases k with
      | zero => omega
      | succ k2 =>
        rw [List.take_succ_cons] at he
        have hmem : '>' ∈ ((tgt ++ '>' :: r.take k2).map lowerAscii) := by
          have hm := List.mem_map_of_mem lowerAscii
            (show '>' ∈ tgt ++ '>' :: r.take k2 by simp)
          simpa [show lowerAscii '>' = '>' from by decide] using hm
        rw [he] at hmem
        exact hpat hmem
    have h2 : startsWithCI pat tgt = false := by
      unfold startsWithCI
      rw [beq_eq_false_iff_ne]
      intro he
      have hlen2 := congrArg List.length he
      simp [List.length_map, List.length_take] at hlen2
      omega
    rw [h1, h2]

lemma tw_startsWithHttpCI_append (tgt r : List Char) (htgt : ∀ c ∈ tgt, c ≠ '>') :
    startsWithHttpCI (tgt ++ '>' :: r) = startsWithHttpCI tgt := by
  unfold startsWithHttpCI
  rw [tw_startsWithCI_append _ _ _ (by decide) htgt,
    tw_startsWithCI_append _ _ _ (by decide) htgt]

lemma tw_mal_at_boundary (target w : List Char)
    (htne : target ≠ [])
    (hgt : ∀ c ∈ target, c ≠ '>')
    (hsp : ∀ c ∈ target, isSpaceChar c = false) :
    matchAfterLabel (' ' :: '<' :: (target ++ '>' :: btick :: '_' :: w))
      = if startsWithHttpCI target = true then none else some (target, w) := by
  have htw : ((' ' :: '<' :: (target ++ '>' :: btick :: '_' :: w)).takeWhile isSpaceChar)
      = [' '] := by
    rw [List.takeWhile_cons]
    simp only [show isSpaceChar ' ' = true from by decide, if_true]
    rw [List.takeWhile_cons]
    simp [show isSpaceChar '<' = false from by decide]
  have hdw : ((' ' :: '<' :: (target ++ '>' :: btick :: '_' :: w)).dropWhile isSpaceChar)
      = '<' :: (target ++ '>' :: btick :: '_' :: w) := by
    rw [List.dropWhile_cons]
    simp only [show isSpaceChar ' ' = true from by decide, if_true]
    rw [List.dropWhile_cons]
    simp [show isSpaceChar '<' = false from by decide]
  simp only [matchAfterLabel, htw, hdw]
  simp only [List.isEmpty_cons, Bool.false_eq_true, if_false]
  simp only [matchTargetPart]
  simp only [show (('<' : Char) != '<') = false from by decide, Bool.false_eq_true, if_false]
  rw [tw_startsWithHttpCI_append target (btick :: '_' :: w) hgt]
  by_cases hh : startsWithHttpCI target = true
  · simp [hh]
  · have hh' : startsWithHttpCI target = false := by simpa using hh
    simp only [hh', Bool.false_eq_true, if_false]
    have ht1 : (target ++ '>' :: btick :: '_' :: w).takeWhile (fun x => x != '>')
        = target := by
      rw [tw_takeWhile_append_all _ _ _ (fun c hc => bne_iff_ne.mpr (hgt c hc))]
      rw [List.takeWhile_cons]
      simp [show (('>' : Char) != '>') = false from by decide]
    have ht2 : (target ++ '>' :: btick :: '_' :: w).dropWhile (fun x => x != '>')
        = '>' :: btick :: '_' :: w := by
      rw [tw_dropWhile_append_all _ _ _ (fun c hc => bne_iff_ne.mpr (hgt c hc))]
      rw [List.dropWhile_cons]
      simp [show (('>' : Char) != '>') = false from by decide]
    simp only [ht1, ht2]
    have hemp : target.isEmpty = false := by
      cases target with
      | nil => exact absurd rfl htne
      | cons a l => rfl
    simp only [hemp, Bool.false_eq_true, if_false]
    simp [show (('>' : Char) == '>' && btick == btick && ('_' : Char) == '_') = true from
      by decide]

lemma tw_mtp_after_label (target w : List Char)
    (hh : startsWithHttpCI (target ++ '>' :: w) = true) :
    ∀ lab : List Char, (∀ c ∈ lab, c ≠ '<') →
      matchTargetPart ((lab ++ ' ' :: '<' :: (target ++ '>' :: w)).dropWhile isSpaceChar)
        = none := by
  intro lab
  induction lab with
  | nil =>
    intro _
    simp only [List.nil_append]
    rw [List.dropWhile_cons]
    simp only [show isSpaceChar ' ' = true from by decide, if_true]
    rw [List.dropWhile_cons]
    simp only [show isSpaceChar '<' = false from by decide, Bool.false_eq_true, if_false]
    simp [matchTargetPart, hh]
  | cons a lab ih =>
    intro hl
    have hal : ∀ c ∈ lab, c ≠ '<' := fun c hc => hl c (List.mem_cons_of_mem _ hc)
    rw [List.cons_append, List.dropWhile_cons]
    cases ha : isSpaceChar a with
    | true =>
      rw [if_pos rfl]
      exact ih hal
    | false =>
      rw [if_neg (by simp [ha])]
      have ha' : (a != '<') = true := bne_iff_ne.mpr (hl a (List.mem_cons_self _ _))
      simp [matchTargetPart, ha']

lemma tw_mal_after_label (target w lab : List Char)
    (hh : startsWithHttpCI (target ++ '>' :: w) = true)
    (hl : ∀ c ∈ lab, c ≠ '<') :
    matchAfterLabel (lab ++ ' ' :: '<' :: (target ++ '>' :: w)) = none := by
  simp only [matchAfterLabel]
  split
  · rfl
  · exact tw_mtp_after_label target w hh lab hl

lemma tw_tryK_congr_down (R r1 : List Char) :
    ∀ k m, m ≤ k → (∀ j, m < j → j ≤ k → matchAfterLabel (R.drop j ++ r1) = none) →
      tryK k R r1 = tryK m R r1 := by
  intro k
  induction k with
  | zero =>
    intro m hm _
    have h0 : m = 0 := by omega
    subst h0
    rfl
  | succ k ih =>
    intro m hm hnone
    by_cases hmk : m = k + 1
    · subst hmk
      rfl
    · have hm' : m ≤ k := by omega
      have h1 : matchAfterLabel (R.drop (k+1) ++ r1) = none :=
        hnone (k+1) (by omega) (Nat.le_refl _)
      show tryK (k+1) R r1 = _
      simp only [tryK, h1]
      exact ih m hm' (fun j hj hjk => hnone j hj (by omega))

lemma tw_tryK_none (R r1 : List Char) :
    ∀ k, (∀ j, 1 ≤ j → j ≤ k → matchAfterLabel (R.drop j ++ r1) = none) →
      tryK k R r1 = none := by
  intro k
  induction k with
  | zero => intro _; rfl
  | succ k ih =>
    intro h
    simp only [tryK, h (k+1) (by omega) (Nat.le_refl _)]
    exact ih (fun j h1 h2 => h j h1 (by omega))

lemma tw_tryMatchAt_btick (cs1 : List Char) :
    tryMatchAt (btick :: cs1)
      = tryK (cs1.takeWhile (fun x => x != btick)).length
          (cs1.takeWhile (fun x => x != btick)) (cs1.dropWhile (fun x => x != btick)) := by
  simp [tryMatchAt]

lemma tw_tryMatchAt_btick_tail (cs1 : List Char) (h : ∀ c ∈ cs1, c ≠ btick) :
    tryMatchAt (btick :: cs1) = none := by
  rw [tw_tryMatchAt_btick]
  apply tw_tryK_none
  intro j _ _
  apply tw_mal_no_btick
  intro c hc
  simp only [List.mem_append] at hc
  rcases hc with h1 | h1
  · exact h c ((List.takeWhile_sublist _).subset (List.drop_subset _ _ h1))
  · exact h c ((List.dropWhile_sublist _).subset h1)

lemma tw_tryMatchAt_link_form (label target suf : List Char)
    (hlb : ∀ c ∈ label, c ≠ btick)
    (htb : ∀ c ∈ target, c ≠ btick) :
    tryMatchAt (btick :: (label ++ ' ' :: '<' :: (target ++ '>' :: btick :: '_' :: suf)))
      = tryK (label ++ ' ' :: '<' :: (target ++ ['>'])).length
          (label ++ ' ' :: '<' :: (target ++ ['>'])) (btick :: '_' :: suf) := by
  have hX : label ++ ' ' :: '<' :: (target ++ '>' :: btick :: '_' :: suf)
      = (label ++ ' ' :: '<' :: (target ++ ['>'])) ++ (btick :: '_' :: suf) := by
    simp
  have hnb : ∀ c ∈ label ++ ' ' :: '<' :: (target ++ ['>']), (c != btick) = true := by
    intro c hc
    rw [bne_iff_ne]
    simp only [List.mem_append, List.mem_cons, List.mem_singleton,
      List.not_mem_nil, or_false] at hc
    rcases hc with h1 | h1 | h1 | h1 | h1
    · exact hlb c h1
    · subst h1; decide
    · subst h1; decide
    · exact htb c h1
    · subst h1; decide
  have hR : (label ++ ' ' :: '<' :: (target ++ '>' :: btick :: '_' :: suf)).takeWhile
      (fun x => x != btick) = label ++ ' ' :: '<' :: (target ++ ['>']) := by
    rw [hX, tw_takeWhile_append_all _ _ _ hnb, List.takeWhile_cons]
    simp [show ((btick != btick) = false) from by decide]
  have hD : (label ++ ' ' :: '<' :: (target ++ '>' :: btick :: '_' :: suf)).dropWhile
      (fun x => x != btick) = btick :: '_' :: suf := by
    rw [hX, tw_dropWhile_append_all _ _ _ hnb, List.dropWhile_cons]
    simp [show ((btick != btick) = false) from by decide]
  rw [tw_tryMatchAt_btick, hR, hD]

lemma tw_mal_high_none (label target suf : List Char)
    (hts : ∀ c ∈ target, isSpaceChar c = false) :
    ∀ j, label.length < j →
      matchAfterLabel ((label ++ ' ' :: '<' :: (target ++ ['>'])).drop j
        ++ (btick :: '_' :: suf)) = none := by
  intro j hj
  have hYnb : ∀ c ∈ '<' :: (target ++ ['>']), isSpaceChar c = false := by
    intro c hc
    simp only [List.mem_cons, List.mem_append, List.mem_singleton,
      List.not_mem_nil, or_false] at hc
    rcases hc with h1 | h1 | h1
    · subst h1; decide
    · exact hts c h1
    · subst h1; decide
  have hjs : j = label.length + (j - label.length) := by omega
  have hdrop1 : (label ++ ' ' :: '<' :: (target ++ ['>'])).drop j
      = (' ' :: '<' :: (target ++ ['>'])).drop (j - label.length) := by
    conv_lhs => rw [hjs]
    exact List.drop_append _
  obtain ⟨i, hi⟩ : ∃ i, j - label.length = i + 1 := ⟨j - label.length - 1, by omega⟩
  have hdrop2 : (' ' :: '<' :: (target ++ ['>'])).drop (j - label.length)
      = ('<' :: (target ++ ['>'])).drop i := by
    rw [hi, List.drop_succ_cons]
  rw [hdrop1, hdrop2]
  refine tw_mal_drop_none _ _ hYnb (fun c r hcr => ?_) i
  have hcb : c = btick := by
    injection hcr with h1 _
    exact h1.symm
  subst hcb
  decide

lemma tw_tryMatchAt_link (label target suf : List Char)
    (hlne : label ≠ []) (hlb : ∀ c ∈ label, c ≠ btick)
    (htne : target ≠ [])
    (htb : ∀ c ∈ target, c ≠ btick)
    (htg : ∀ c ∈ target, c ≠ '>')
    (hts : ∀ c ∈ target, isSpaceChar c = false)
    (hh : startsWithHttpCI target = false) :
    tryMatchAt (btick :: (label ++ ' ' :: '<' :: (target ++ '>' :: btick :: '_' :: suf)))
      = some (label, target, suf) := by
  rw [tw_tryMatchAt_link_form label target suf hlb htb]
  have hstep := tw_tryK_congr_down (label ++ ' ' :: '<' :: (target ++ ['>']))
      (btick :: '_' :: suf) (label ++ ' ' :: '<' :: (target ++ ['>'])).length label.length
      (by simp only [List.length_append]; omega)
      (fun j hj _ => tw_mal_high_none label target suf hts j hj)
  rw [hstep]
  cases hl : label.length with
  | zero => exact absurd (List.length_eq_zero.mp hl) hlne
  | succ L =>
    have hdropL : (label ++ ' ' :: '<' :: (target ++ ['>'])).drop (L+1)
        = ' ' :: '<' :: (target ++ ['>']) := by
      rw [← hl]
      exact List.drop_left _ _
    have htakeL : (label ++ ' ' :: '<' :: (target ++ ['>'])).take (L+1) = label := by
      rw [← hl]
      exact List.take_left _ _
    simp only [tryK, hdropL, htakeL]
    have hre : (' ' :: '<' :: (target ++ ['>'])) ++ (btick :: '_' :: suf)
        = ' ' :: '<' :: (target ++ '>' :: btick :: '_' :: suf) := by
      simp
    rw [hre, tw_mal_at_boundary target suf htne htg hts]
    simp [hh]

lemma tw_tryMatchAt_link_none (label target suf : List Char)
    (hlb : ∀ c ∈ label, c ≠ btick) (hll : ∀ c ∈ label, c ≠ '<')
    (htb : ∀ c ∈ target, c ≠ btick)
    (htg : ∀ c ∈ target, c ≠ '>')
    (hts : ∀ c ∈ target, isSpaceChar c = false)
    (hh : startsWithHttpCI target = true) :
    tryMatchAt (btick :: (label ++ ' ' :: '<' :: (target ++ '>' :: btick :: '_' :: suf)))
      = none := by
  rw [tw_tryMatchAt_link_form label target suf hlb htb]
  apply tw_tryK_none
  intro j hj1 _
  by_cases hjl : j ≤ label.length
  · have hdrop : (label ++ ' ' :: '<' :: (target ++ ['>'])).drop j
        = label.drop j ++ ' ' :: '<' :: (target ++ ['>']) :=
      List.drop_append_of_le_length hjl
    rw [hdrop]
    have hasc : (label.drop j ++ ' ' :: '<' :: (target ++ ['>'])) ++ btick :: '_' :: suf
        = label.drop j ++ ' ' :: '<' :: (target ++ '>' :: btick :: '_' :: suf) := by
      simp
    rw [hasc]
    apply tw_mal_after_label
    · rw [tw_startsWithHttpCI_append target _ htg]
      exact hh
    · exact fun c hc => hll c (List.drop_subset j label hc)
  · push_neg at hjl
    exact tw_mal_high_none label target suf hts j hjl

/-- C8 counterexample: the pattern's lookahead runs under `re.I`, so a link
    target beginning with an upper-case `HTTP://` is left unchanged by
    `_longDescriptionFromReadme` even though it does not begin with the
    lower-case `http://` or `https://`, while the claim as stated requires
    such a link to be rewritten (to the GitHub form, which differs from the
    input). -/
theorem longDescription_uppercase_scheme_unchanged :
    _longDescriptionFromReadme "`a <HTTP://b>`_" = "`a <HTTP://b>`_"
    ∧ strStartsWith "HTTP://b" "http://" = false
    ∧ strStartsWith "HTTP://b" "https://" = false
    ∧ "`a <HTTP://b>`_"
      ≠ "`a <https://github.com/twisted/twisted/blob/trunk/HTTP://b>`_" :=
  ⟨by decide, by decide, by decide, by decide⟩

/-- C8 (amended): for readme texts of the form
    `prefix + backquote + label + space + < + target + > + backquote + _ + suffix`
    where the prefix and label contain no backquote, the label is non-empty,
    and the target is non-empty and free of backquotes, `>` and whitespace:
    when the target does not begin with `http://` or `https://` under
    case-insensitive comparison the link is rewritten to point at
    `https://github.com/twisted/twisted/blob/trunk/` followed by the target
    (and scanning continues on the suffix); when the target does begin with
    one of the two schemes (case-insensitively), and moreover the label
    contains no `<` and the suffix no backquote, the text is left entirely
    unchanged. -/
theorem longDescription_link_munging (pre label target suf : List Char)
    (hpre : ∀ c ∈ pre, c ≠ btick)
    (hlne : label ≠ []) (hlb : ∀ c ∈ label, c ≠ btick)
    (htne : target ≠ [])
    (ht : ∀ c ∈ target, c ≠ btick ∧ c ≠ '>' ∧ isSpaceChar c = false) :
    (startsWithHttpCI target = false →
      _longDescriptionFromReadme (String.mk (pre ++ btick ::
          (label ++ ' ' :: '<' :: (target ++ '>' :: btick :: '_' :: suf))))
        = String.mk (pre ++ replLink label target ++ rstSub suf))
    ∧ (startsWithHttpCI target = true →
        (∀ c ∈ label, c ≠ '<') → (∀ c ∈ suf, c ≠ btick) →
      _longDescriptionFromReadme (String.mk (pre ++ btick ::
          (label ++ ' ' :: '<' :: (target ++ '>' :: btick :: '_' :: suf))))
        = String.mk (pre ++ btick ::
            (label ++ ' ' :: '<' :: (target ++ '>' :: btick :: '_' :: suf)))) := by
  have htb : ∀ c ∈ target, c ≠ btick := fun c hc => (ht c hc).1
  have htg : ∀ c ∈ target, c ≠ '>' := fun c hc => (ht c hc).2.1
  have hts : ∀ c ∈ target, isSpaceChar c = false := fun c hc => (ht c hc).2.2
  constructor
  · intro hh
    have key : rstSub (pre ++ btick ::
          (label ++ ' ' :: '<' :: (target ++ '>' :: btick :: '_' :: suf)))
        = pre ++ replLink label target ++ rstSub suf := by
      rw [tw_rstSub_copy pre _ hpre,
        tw_rstSub_cons_some btick _ label target suf
          (tw_tryMatchAt_link label target suf hlne hlb htne htb htg hts hh)]
      simp [List.append_assoc]
    show String.mk (rstSub (pre ++ btick ::
        (label ++ ' ' :: '<' :: (target ++ '>' :: btick :: '_' :: suf)))) = _
    exact congrArg String.mk key
  · intro hh hll hsuf
    have h1 : tryMatchAt (btick ::
        (label ++ ' ' :: '<' :: (target ++ '>' :: btick :: '_' :: suf))) = none :=
      tw_tryMatchAt_link_none label target suf hlb hll htb htg hts hh
    have hA : ∀ c ∈ label ++ ' ' :: '<' :: (target ++ ['>']), c ≠ btick := by
      intro c hc
      simp only [List.mem_append, List.mem_cons, List.mem_singleton,
        List.not_mem_nil, or_false] at hc
      rcases hc with h2 | h2 | h2 | h2 | h2
      · exact hlb c h2
      · subst h2; decide
      · subst h2; decide
      · exact htb c h2
      · subst h2; decide
    have hus : ∀ c ∈ '_' :: suf, c ≠ btick := by
      intro c hc
      rcases List.mem_cons.mp hc with h2 | h2
      · subst h2; decide
      · exact hsuf c h2
    have key : rstSub (pre ++ btick ::
          (label ++ ' ' :: '<' :: (target ++ '>' :: btick :: '_' :: suf)))
        = pre ++ btick ::
            (label ++ ' ' :: '<' :: (target ++ '>' :: btick :: '_' :: suf)) := by
      rw [tw_rstSub_copy pre _ hpre, tw_rstSub_cons_none _ _ h1]
      have hcs1 : rstSub (label ++ ' ' :: '<' :: (target ++ '>' :: btick :: '_' :: suf))
          = label ++ ' ' :: '<' :: (target ++ '>' :: btick :: '_' :: suf) := by
        have hX : label ++ ' ' :: '<' :: (target ++ '>' :: btick :: '_' :: suf)
            = (label ++ ' ' :: '<' :: (target ++ ['>'])) ++ (btick :: '_' :: suf) := by
          simp
        rw [hX, tw_rstSub_copy _ _ hA,
          tw_rstSub_cons_none btick ('_' :: suf) (tw_tryMatchAt_btick_tail ('_' :: suf) hus)]
        have h2 : rstSub ('_' :: suf) = '_' :: suf := by
          have h3 := tw_rstSub_copy ('_' :: suf) [] hus
          simpa [show rstSub ([] : List Char) = [] from rfl] using h3
        rw [h2]
      rw [hcs1]
    show String.mk (rstSub (pre ++ btick ::
        (label ++ ' ' :: '<' :: (target ++ '>' :: btick :: '_' :: suf)))) = _
    exact congrArg String.mk key

/-- Witness for the amended C8 at a concrete input: the `NEWS <NEWS.rst>`
    link of the readme is rewritten to its GitHub form. -/
theorem longDescription_link_munging_witness :
    _longDescriptionFromReadme (String.mk (([] : List Char) ++ btick ::
        ("NEWS".toList ++ ' ' :: '<' :: ("NEWS.rst".toList ++ '>' :: btick :: '_' :: []))))
      = String.mk (([] : List Char)
          ++ replLink "NEWS".toList "NEWS.rst".toList ++ rstSub []) :=
  (longDescription_link_munging [] ("NEWS".toList) ("NEWS.rst".toList) []
    (by decide) (by decide) (by decide) (by decide) (by decide)).1 (by decide)
